import Mathlib

/-!
Shallow embedding of `guess_chords.py`: a small chord-identification engine.

* `normalize_note` embeds the Python `enharmonic_map.get(note, note)` lookup
  (the dictionary maps every sharp to its flat *and* every flat to its sharp).
* `note_to_semitone` embeds `semitone_map.get(normalize_note(note))`; the
  Python `None` result is `Option.none`.
* `semitone_to_note` embeds `notes[semitone % 12]`.
* `calculate_intervals` and `guess_chord` embed the functions of the same
  names.  Python exceptions that escape the function are modelled by
  `PyOutcome.typeError`; normal returns by `PyOutcome.ok`.
-/

/-- Outcome of running one of the Python functions: a normal string return,
or an uncaught `TypeError` escaping the call. -/
inductive PyOutcome where
  | ok (s : String)
  | typeError
deriving DecidableEq, Repr

/-- `normalize_note` (guess_chords.py, lines 3-16): dictionary lookup in the
ten-entry `enharmonic_map`, defaulting to the input itself. -/
def normalize_note (note : String) : String :=
  if note = "A#" then "Bb" else if note = "Bb" then "A#"
  else if note = "C#" then "Db" else if note = "Db" then "C#"
  else if note = "D#" then "Eb" else if note = "Eb" then "D#"
  else if note = "F#" then "Gb" else if note = "Gb" then "F#"
  else if note = "G#" then "Ab" else if note = "Ab" then "G#"
  else note

/-- `note_to_semitone` (lines 18-28): `semitone_map.get(normalize_note(note))`;
a missing key gives Python `None`, i.e. `none`. -/
def note_to_semitone (note : String) : Option Nat :=
  let n := normalize_note note
  if n = "C" then some 0 else if n = "C#" then some 1 else if n = "D" then some 2
  else if n = "D#" then some 3 else if n = "E" then some 4 else if n = "F" then some 5
  else if n = "F#" then some 6 else if n = "G" then some 7 else if n = "G#" then some 8
  else if n = "A" then some 9 else if n = "A#" then some 10 else if n = "B" then some 11
  else none

/-- `semitone_to_note` (lines 30-37): `notes[semitone % 12]`. -/
def semitone_to_note (semitone : Nat) : String :=
  -- the source writes these twelve names as one list literal; it is split in
  -- two here purely typographically
  (["C", "C#", "D", "D#", "E", "F"] ++
   ["F#", "G", "G#", "A", "A#", "B"]).getD (semitone % 12) ""

/-- `note.split('(')[0]` (line 70): the prefix of the string before the first
opening parenthesis. -/
def stripParen (s : String) : String :=
  ⟨s.data.takeWhile (fun c => c != '(')⟩

/-- The `chord_intervals` dict (lines 49-65), in declaration order
(Python dicts iterate in insertion order). -/
def chord_intervals : List (String × List Nat) :=
  [("Major", [0, 4, 7]), ("minor", [0, 3, 7]), ("Dim", [0, 3, 6]), ("Aug", [0, 4, 8]),
   ("Maj7", [0, 4, 7, 11]), ("m7", [0, 3, 7, 10]), ("7", [0, 4, 7, 10]),
   ("Dim7", [0, 3, 6, 9]), ("Sus2", [0, 2, 7]), ("Sus4", [0, 5, 7]),
   ("6", [0, 4, 7, 9]), ("m6", [0, 3, 7, 9]),
   ("9", [0, 4, 7, 10, 14]), ("m9", [0, 3, 7, 10, 14]), ("Maj9", [0, 4, 7, 11, 14])]

/-- Insert into a strictly increasing list, dropping duplicates.  Used to model
Python's `sorted(set(...))`. -/
def insertSorted (x : Nat) : List Nat → List Nat
  | [] => [x]
  | y :: ys => if x < y then x :: y :: ys else if x = y then y :: ys else y :: insertSorted x ys

/-- `sorted(set(l))`: the strictly increasing enumeration of the elements of `l`. -/
def sortedDedup (l : List Nat) : List Nat :=
  l.foldr insertSorted []

/-- Plain insertion into a `≤`-sorted list (no deduplication). -/
def insertLe (x : Nat) : List Nat → List Nat
  | [] => [x]
  | y :: ys => if x ≤ y then x :: y :: ys else y :: insertLe x ys

/-- `sorted(l)` for a plain list (duplicates kept). -/
def sortList (l : List Nat) : List Nat :=
  l.foldr insertLe []

/-- Line 82: `sorted((s - root_semitone) % 12 for s in semitones)`.
Python `%` on a positive modulus agrees with `Int.emod`. -/
def intervalsFor (root : Nat) (semitones : List Nat) : List Nat :=
  sortList (semitones.map (fun s => ((Int.ofNat s - Int.ofNat root) % 12).toNat))

/-- The match condition of line 89:
`len(intervals) >= 3 and intervals == pattern[:len(intervals)]`. -/
def matchCond (intervals pat : List Nat) : Prop :=
  3 ≤ intervals.length ∧ intervals = pat.take intervals.length

instance (intervals pat : List Nat) : Decidable (matchCond intervals pat) :=
  inferInstanceAs (Decidable (_ ∧ _))

/-- The inner loop of lines 88-91: first catalog entry (in declaration order)
whose truncated pattern equals `intervals`. -/
def matchCatalog (intervals : List Nat) : Option String :=
  chord_intervals.findSome? (fun p => if matchCond intervals p.2 then some p.1 else none)

/-- The outer loop of lines 80-91: try each deduplicated semitone (ascending)
as root; on a catalog hit return `f"{root_note} {chord_type}"`. -/
def rootSearch (semitones : List Nat) : Option String :=
  semitones.findSome? (fun root =>
    (matchCatalog (intervalsFor root semitones)).map
      (fun t => semitone_to_note root ++ " " ++ t))

/-- Lines 79-105 of `calculate_intervals`, after the conversion step
succeeded: root/catalog search, then the two-note special cases. -/
def afterConvert (semitones : List Nat) : PyOutcome :=
  match rootSearch semitones with
  | some s => .ok s
  | none =>
    match semitones with
    | [a, b] =>
      if ((((b : Int)) - (a : Int)) % 12).toNat = 7 then
        .ok (semitone_to_note a ++ " 5")
      else if ((((b : Int)) - (a : Int)) % 12).toNat = 4 then
        .ok (semitone_to_note a ++ " (no fifth)")
      else if ((((b : Int)) - (a : Int)) % 12).toNat = 3 then
        .ok (semitone_to_note a ++ " Minor (no fifth)")
      else .ok "Unknown"
    | _ => .ok "Unknown"

/-- The semitone set computed on line 71 for an input whose tokens all
convert: `sorted(set(note_to_semitone(n) for n in cleaned_notes))`. -/
def semitonesOf (notes : List String) : List Nat :=
  sortedDedup (((notes.map stripParen).map note_to_semitone).filterMap id)

/-- `calculate_intervals` (lines 39-105).  The three conversion outcomes:

* every token converts: `sorted` succeeds and the search runs (`afterConvert`);
* some but not all tokens convert: `sorted` compares `None` with an `int`,
  raising `TypeError` inside the `try` block, which is caught → `"Unknown"`;
* no token converts: the set is `{None}`, `sorted` returns `[None]` without
  comparing, and `(None - None) % 12` on line 82 raises `TypeError` *outside*
  the `try` block → the exception escapes. -/
def calculate_intervals (notes : List String) : PyOutcome :=
  if notes = [] then .ok "Unknown"
  else if ((notes.map stripParen).map note_to_semitone).all Option.isSome then
    afterConvert (semitonesOf notes)
  else if ((notes.map stripParen).map note_to_semitone).any Option.isSome then
    .ok "Unknown"
  else .typeError

/-- `guess_chord` (lines 107-120). -/
def guess_chord (notes : List String) : PyOutcome :=
  match notes with
  | [] => .ok "Unknown"
  | [p] => .ok (p ++ " (single note)")
  | _ => calculate_intervals notes

/-! Properties of `sortedDedup`, the model of Python's `sorted(set(...))`. -/

theorem mem_insertSorted {a x : Nat} {l : List Nat} :
    a ∈ insertSorted x l ↔ a = x ∨ a ∈ l := by
  induction l with
  | nil => simp [insertSorted]
  | cons y ys ih =>
    simp only [insertSorted]
    split_ifs with h1 h2
    · simp [List.mem_cons]
    · subst h2
      simp only [List.mem_cons]
      tauto
    · simp only [List.mem_cons, ih]
      tauto

theorem sorted_insertSorted {x : Nat} {l : List Nat} (h : l.Sorted (· < ·)) :
    (insertSorted x l).Sorted (· < ·) := by
  induction l with
  | nil => simp [insertSorted]
  | cons y ys ih =>
    rw [List.sorted_cons] at h
    obtain ⟨hy, hys⟩ := h
    simp only [insertSorted]
    split_ifs with h1 h2
    · rw [List.sorted_cons]
      refine ⟨?_, List.sorted_cons.2 ⟨hy, hys⟩⟩
      intro b hb
      rcases List.mem_cons.1 hb with rfl | hb
      · exact h1
      · exact h1.trans (hy b hb)
    · exact List.sorted_cons.2 ⟨hy, hys⟩
    · rw [List.sorted_cons]
      refine ⟨?_, ih hys⟩
      intro b hb
      rcases mem_insertSorted.1 hb with rfl | hb
      · omega
      · exact hy b hb

theorem sorted_sortedDedup (l : List Nat) : (sortedDedup l).Sorted (· < ·) := by
  induction l with
  | nil => simp [sortedDedup]
  | cons a l ih => exact sorted_insertSorted ih

theorem mem_sortedDedup {a : Nat} {l : List Nat} : a ∈ sortedDedup l ↔ a ∈ l := by
  induction l with
  | nil => simp [sortedDedup]
  | cons b l ih =>
    show a ∈ insertSorted b (sortedDedup l) ↔ _
    rw [mem_insertSorted, ih]
    simp [List.mem_cons]

theorem sortedDedup_eq_of_mem_iff {l₁ l₂ : List Nat} (h : ∀ a, a ∈ l₁ ↔ a ∈ l₂) :
    sortedDedup l₁ = sortedDedup l₂ := by
  haveI : IsAntisymm Nat (· < ·) :=
    ⟨fun a b h1 h2 => absurd (h1.trans h2) (Nat.lt_irrefl a)⟩
  haveI : IsIrrefl Nat (· < ·) := ⟨Nat.lt_irrefl⟩
  have s1 := sorted_sortedDedup l₁
  have s2 := sorted_sortedDedup l₂
  refine List.eq_of_perm_of_sorted ?_ s1 s2
  refine (List.perm_ext_iff_of_nodup s1.nodup s2.nodup).2 ?_
  intro a
  rw [mem_sortedDedup, mem_sortedDedup]
  exact h a

theorem length_insertSorted (x : Nat) (l : List Nat) :
    (insertSorted x l).length ≤ l.length + 1 := by
  induction l with
  | nil => simp [insertSorted]
  | cons y ys ih =>
    simp only [insertSorted]
    split_ifs
    · simp
    · simp
    · simpa using Nat.succ_le_succ ih

theorem length_sortedDedup_le (l : List Nat) : (sortedDedup l).length ≤ l.length := by
  induction l with
  | nil => simp [sortedDedup]
  | cons a l ih =>
    calc (sortedDedup (a :: l)).length = (insertSorted a (sortedDedup l)).length := rfl
    _ ≤ (sortedDedup l).length + 1 := length_insertSorted a (sortedDedup l)
    _ ≤ l.length + 1 := Nat.succ_le_succ ih

/-! Congruence of the engine in the element set of its input. -/

theorem all_map_general {α β : Type} (f : α → β) (l : List α) (p : β → Bool) :
    (l.map f).all p = l.all (p ∘ f) := by
  induction l with
  | nil => rfl
  | cons a l ih => simp [List.all_cons, ih]

theorem any_map_general {α β : Type} (f : α → β) (l : List α) (p : β → Bool) :
    (l.map f).any p = l.any (p ∘ f) := by
  induction l with
  | nil => rfl
  | cons a l ih => simp [List.any_cons, ih]

theorem guess_chord_two_le {notes : List String} (h : 2 ≤ notes.length) :
    guess_chord notes = calculate_intervals notes := by
  match notes with
  | [] => simp at h
  | [p] => simp at h
  | a :: b :: t => rfl

theorem mem_semitone_conversions {p : List String} {a : Nat} :
    a ∈ ((p.map stripParen).map note_to_semitone).filterMap id ↔
      ∃ x ∈ p, note_to_semitone (stripParen x) = some a := by
  simp [List.mem_filterMap, List.mem_map]

theorem calculate_intervals_congr {p q : List String}
    (hp : p ≠ []) (hq : q ≠ []) (h : ∀ x, x ∈ p ↔ x ∈ q) :
    calculate_intervals p = calculate_intervals q := by
  have key : ∀ f : String → Bool, p.all f = q.all f := by
    intro f
    cases hq1 : q.all f with
    | false =>
      cases hp1 : p.all f with
      | false => rfl
      | true =>
        exfalso
        rw [List.all_eq_true] at hp1
        have ht : q.all f = true := List.all_eq_true.2 fun x hx => hp1 x ((h x).2 hx)
        rw [hq1] at ht
        exact Bool.false_ne_true ht
    | true => exact List.all_eq_true.2 fun x hx => (List.all_eq_true.1 hq1) x ((h x).1 hx)
  have key2 : ∀ f : String → Bool, p.any f = q.any f := by
    intro f
    cases hq1 : q.any f with
    | true =>
      obtain ⟨x, hx, hfx⟩ := List.any_eq_true.1 hq1
      exact List.any_eq_true.2 ⟨x, (h x).2 hx, hfx⟩
    | false =>
      cases hp1 : p.any f with
      | false => rfl
      | true =>
        exfalso
        obtain ⟨x, hx, hfx⟩ := List.any_eq_true.1 hp1
        have ht : q.any f = true := List.any_eq_true.2 ⟨x, (h x).1 hx, hfx⟩
        rw [hq1] at ht
        exact Bool.false_ne_true ht
  have hall : ((p.map stripParen).map note_to_semitone).all Option.isSome
            = ((q.map stripParen).map note_to_semitone).all Option.isSome := by
    simp only [all_map_general]
    exact key _
  have hany : ((p.map stripParen).map note_to_semitone).any Option.isSome
            = ((q.map stripParen).map note_to_semitone).any Option.isSome := by
    simp only [any_map_general]
    exact key2 _
  have hsem : semitonesOf p = semitonesOf q := by
    apply sortedDedup_eq_of_mem_iff
    intro a
    rw [mem_semitone_conversions, mem_semitone_conversions]
    constructor
    · rintro ⟨x, hx, hxa⟩
      exact ⟨x, (h x).1 hx, hxa⟩
    · rintro ⟨x, hx, hxa⟩
      exact ⟨x, (h x).2 hx, hxa⟩
  unfold calculate_intervals
  rw [if_neg hp, if_neg hq, hall, hany, hsem]

/-- Claim C1: `normalize_note` is claimed to map flats to sharps and leave
every other string — in particular already-sharp spellings — unchanged.  The
code's `enharmonic_map` contains both directions, so the sharp spelling "A#"
is mapped to "Bb" instead of passing through; the flat-to-sharp half and the
natural-name half do behave as claimed. -/
theorem C1_normalize_flips_sharps :
    normalize_note "A#" = "Bb" ∧ normalize_note "A#" ≠ "A#" ∧
    normalize_note "Bb" = "A#" ∧ normalize_note "Db" = "C#" ∧
    normalize_note "Eb" = "D#" ∧ normalize_note "Gb" = "F#" ∧
    normalize_note "Ab" = "G#" ∧ normalize_note "C" = "C" := by decide

/-- Claim C2: the `toSemitone`/`toName` round-trip is claimed for all 12
canonical names.  Because `note_to_semitone` first applies `normalize_note`,
which flips every sharp to the flat spelling absent from `semitone_map`, all
five sharp canonical names convert to `None`; `"C#"` is canonical
(`semitone_to_note 1 = "C#"`) yet fails to convert, contradicting the code's
own docstring example. -/
theorem C2_sharp_names_unconvertible :
    note_to_semitone "C#" = none ∧ note_to_semitone "D#" = none ∧
    note_to_semitone "F#" = none ∧ note_to_semitone "G#" = none ∧
    note_to_semitone "A#" = none ∧ semitone_to_note 1 = "C#" ∧
    note_to_semitone "C" = some 0 ∧ semitone_to_note 0 = "C" := by decide

/-- Claim C3: `guess_chord` and `calculate_intervals` are claimed never to
raise.  On the module's own `__main__` test case `["F#", "A#", "C#"]` every
token converts to `None`, the set `{None}` survives `sorted` uncompared, and
`(None - None) % 12` on line 82 raises an uncaught `TypeError`. -/
theorem C3_own_test_case_raises :
    guess_chord ["F#", "A#", "C#"] = .typeError ∧
    calculate_intervals ["F#", "A#", "C#"] = .typeError := by decide

/-- Claim C4 counterexample: inserting a duplicate of a pitch already present
changes the result when the original list is a singleton — `["C"]` takes the
single-note path while `["C", "C"]` is analysed and yields `"Unknown"`. -/
theorem C4_counterexample_singleton_duplicate :
    guess_chord ["C"] = .ok "C (single note)" ∧
    guess_chord ["C", "C"] = .ok "Unknown" ∧
    guess_chord ["C"] ≠ guess_chord ["C", "C"] := by decide

/-- Claim C5 counterexample: a one-element list whose only token does not
convert takes the single-note path, so the claimed "regardless of the list's
length" fails: `guess_chord ["Z9"]` is not `"Unknown"`. -/
theorem C5_counterexample_singleton_invalid :
    note_to_semitone (stripParen "Z9") = none ∧
    guess_chord ["Z9"] = .ok "Z9 (single note)" ∧
    guess_chord ["Z9"] ≠ .ok "Unknown" := by decide

/-- Claim C4 (amended): for input lists of length at least two, `guess_chord`
is determined by the set of entries alone — so it is invariant under
permutation and under inserting duplicates of pitch names already present.
(The original claim fails only on one-element lists, which bypass the
analysis; see the counterexample.) -/
theorem C4_membership_invariance (p q : List String)
    (hp : 2 ≤ p.length) (hq : 2 ≤ q.length) (h : ∀ x, x ∈ p ↔ x ∈ q) :
    guess_chord p = guess_chord q := by
  rw [guess_chord_two_le hp, guess_chord_two_le hq]
  have hp0 : p ≠ [] := by
    intro e
    rw [e] at hp
    simp at hp
  have hq0 : q ≠ [] := by
    intro e
    rw [e] at hq
    simp at hq
  exact calculate_intervals_congr hp0 hq0 h

/-- Witness for C4: the spec's own example lists agree. -/
theorem C4_membership_invariance_witness :
    guess_chord ["C", "E", "G"] = guess_chord ["E", "C", "G", "C"] ∧
    guess_chord ["C", "E", "G"] = guess_chord ["G", "E", "C"] :=
  ⟨C4_membership_invariance ["C", "E", "G"] ["E", "C", "G", "C"] (by decide) (by decide)
      (by intro x; simp only [List.mem_cons, List.not_mem_nil, or_false]; tauto),
   C4_membership_invariance ["C", "E", "G"] ["G", "E", "C"] (by decide) (by decide)
      (by intro x; simp only [List.mem_cons, List.not_mem_nil, or_false]; tauto)⟩

/-- Claim C5 (amended): a list of length at least two that contains at least
one token that fails to convert *and* at least one token that converts yields
`"Unknown"`.  (One-element lists bypass conversion — see the counterexample —
and a list of length ≥ 2 in which every token fails to convert raises an
uncaught `TypeError` instead, as in C3.) -/
theorem C5_invalid_token_forces_unknown (notes : List String)
    (hlen : 2 ≤ notes.length)
    (hbad : ∃ x ∈ notes, note_to_semitone (stripParen x) = none)
    (hgood : ∃ x ∈ notes, (note_to_semitone (stripParen x)).isSome) :
    guess_chord notes = .ok "Unknown" := by
  rw [guess_chord_two_le hlen]
  have hne : ¬(notes = []) := by
    intro e
    rw [e] at hlen
    simp at hlen
  have hallf : ((notes.map stripParen).map note_to_semitone).all Option.isSome = false := by
    obtain ⟨x, hx, hxn⟩ := hbad
    refine List.all_eq_false.2 ⟨note_to_semitone (stripParen x), ?_, ?_⟩
    · exact List.mem_map_of_mem note_to_semitone (List.mem_map_of_mem stripParen hx)
    · rw [hxn]
      simp
  have hanyt : ((notes.map stripParen).map note_to_semitone).any Option.isSome = true := by
    obtain ⟨x, hx, hxs⟩ := hgood
    refine List.any_eq_true.2 ⟨note_to_semitone (stripParen x), ?_, hxs⟩
    exact List.mem_map_of_mem note_to_semitone (List.mem_map_of_mem stripParen hx)
  unfold calculate_intervals
  rw [if_neg hne, hallf, hanyt]
  simp

/-- Witness for C5 (amended): the spec's example `["C","E","Z9"]`. -/
theorem C5_invalid_token_forces_unknown_witness :
    guess_chord ["C", "E", "Z9"] = .ok "Unknown" :=
  C5_invalid_token_forces_unknown ["C", "E", "Z9"] (by decide)
    ⟨"Z9", by decide, by decide⟩ ⟨"C", by decide, by decide⟩

/-! Machinery for the catalog-search claims C6 and C7. -/

theorem length_insertLe (x : Nat) (l : List Nat) : (insertLe x l).length = l.length + 1 := by
  induction l with
  | nil => rfl
  | cons y ys ih =>
    simp only [insertLe]
    split_ifs
    · rfl
    · simp [ih]

theorem length_sortList (l : List Nat) : (sortList l).length = l.length := by
  induction l with
  | nil => rfl
  | cons a l ih =>
    show (insertLe a (sortList l)).length = l.length + 1
    rw [length_insertLe, ih]

theorem length_intervalsFor (r : Nat) (S : List Nat) :
    (intervalsFor r S).length = S.length := by
  rw [intervalsFor, length_sortList, List.length_map]

theorem findSome?_eq_head?_filterMap {α β : Type} (f : α → Option β) (l : List α) :
    l.findSome? f = (l.filterMap f).head? := by
  induction l with
  | nil => rfl
  | cons a l ih =>
    rw [List.findSome?_cons, List.filterMap_cons]
    cases f a with
    | none => exact ih
    | some b => rfl

/-- Every input whose tokens all convert reaches the root/catalog search:
`calculate_intervals` takes the all-converted branch. -/
theorem calculate_intervals_all_some {notes : List String} (hne : notes ≠ [])
    (hconv : ∀ x ∈ notes, (note_to_semitone (stripParen x)).isSome) :
    calculate_intervals notes = afterConvert (semitonesOf notes) := by
  have hall : ((notes.map stripParen).map note_to_semitone).all Option.isSome = true := by
    rw [List.all_eq_true]
    intro o ho
    simp only [List.mem_map] at ho
    obtain ⟨y, ⟨x, hx, rfl⟩, rfl⟩ := ho
    exact hconv x hx
  unfold calculate_intervals
  rw [if_neg hne, hall]
  simp

/-- The semitone set is never longer than the input list. -/
theorem length_semitonesOf_le (notes : List String) :
    (semitonesOf notes).length ≤ notes.length := by
  have l1 := length_sortedDedup_le ((((notes.map stripParen).map note_to_semitone)).filterMap id)
  have l2 := List.length_filterMap_le (fun o : Option Nat => id o)
    ((notes.map stripParen).map note_to_semitone)
  simp only [List.length_map] at l2
  exact le_trans l1 l2

/-- Spec-side description of the catalog search (spec, section 4.2 step d):
the display labels of all root and catalog-entry pairs — roots taken from the
sorted deduplicated semitone set `S` in ascending order, catalog entries in
declaration order — such that the catalog entry's interval list, truncated to
the signature's length, equals the signature exactly.  The engine is claimed
to return the head of this list, with no further search. -/
def specMatchList (S : List Nat) : List String :=
  S.flatMap (fun r =>
    chord_intervals.filterMap (fun p =>
      if p.2.take (intervalsFor r S).length = intervalsFor r S
      then some (semitone_to_note r ++ " " ++ p.1) else none))

/-- The code's root search agrees with the spec-side first-match description
whenever the signature length is at least 3. -/
theorem rootSearch_eq_specMatchList_head {S : List Nat} (h3 : 3 ≤ S.length) :
    rootSearch S = (specMatchList S).head? := by
  rw [specMatchList, List.head?_flatMap, rootSearch]
  apply congrArg (fun f => List.findSome? f S)
  funext r
  rw [← findSome?_eq_head?_filterMap, matchCatalog, List.map_findSome?]
  apply congrArg (fun f => List.findSome? f chord_intervals)
  funext p
  have hlen : 3 ≤ (intervalsFor r S).length := by
    rw [length_intervalsFor]
    exact h3
  simp only [Function.comp]
  by_cases hc : intervalsFor r S = p.2.take (intervalsFor r S).length
  · have hm : matchCond (intervalsFor r S) p.2 := ⟨hlen, hc⟩
    rw [if_pos hm, if_pos hc.symm]
    rfl
  · have h1 : ¬ matchCond (intervalsFor r S) p.2 := fun hm => hc (And.right hm)
    have h2 : ¬ (p.2.take (intervalsFor r S).length = intervalsFor r S) := fun he => hc he.symm
    rw [if_neg h1, if_neg h2]
    rfl

theorem afterConvert_eq_of_three_le {S : List Nat} (h3 : 3 ≤ S.length) :
    afterConvert S = .ok (((specMatchList S).head?).getD "Unknown") := by
  cases hr : rootSearch S with
  | some s =>
    have hh : (specMatchList S).head? = some s := by
      rw [← rootSearch_eq_specMatchList_head h3, hr]
    simp [afterConvert, hr, hh]
  | none =>
    have hh : (specMatchList S).head? = none := by
      rw [← rootSearch_eq_specMatchList_head h3, hr]
    rcases S with _ | ⟨a, _ | ⟨b, _ | ⟨c, t⟩⟩⟩
    · simp at h3
    · simp at h3
    · simp at h3
    · simp [afterConvert, hr, hh]

/-- Claim C6: for every input whose tokens all convert and whose interval
signature (equivalently, deduplicated semitone set) has length at least 3,
the engine returns the head of the spec-side match list — all (root, catalog
entry) pairs in root-ascending / declaration order whose catalog interval
list truncated to the signature's length equals the signature — defaulting
to "Unknown"; and in particular the dominant-7 precedence example holds. -/
theorem C6_truncation_first_match :
    (∀ notes : List String,
      (∀ x ∈ notes, (note_to_semitone (stripParen x)).isSome) →
      3 ≤ (semitonesOf notes).length →
      guess_chord notes =
        .ok (((specMatchList (semitonesOf notes)).head?).getD "Unknown")) ∧
    guess_chord ["C", "E", "G", "Bb"] = .ok "C 7" := by
  refine ⟨?_, by decide⟩
  intro notes hconv h3
  have hlen2 : 2 ≤ notes.length := by
    have := length_semitonesOf_le notes
    omega
  have hne : notes ≠ [] := by
    intro e
    rw [e] at hlen2
    simp at hlen2
  rw [guess_chord_two_le hlen2, calculate_intervals_all_some hne hconv]
  exact afterConvert_eq_of_three_le h3

/-- Witness for C6: a C-major triad, evaluated through the spec-side list. -/
theorem C6_truncation_first_match_witness :
    guess_chord ["C", "E", "G"] =
      .ok (((specMatchList (semitonesOf ["C", "E", "G"])).head?).getD "Unknown") :=
  C6_truncation_first_match.1 ["C", "E", "G"] (by decide) (by decide)

/-- Claim C7: when the tokens convert to exactly two distinct semitone values
`a < b` and the catalog search fails, the result is decided by
`(b - a) mod 12` with `a` (the lower value, `S[0]`) as root: 7 gives a power
chord, 4 a bare major third, 3 a bare minor third, anything else "Unknown";
and in particular `guess_chord ["C","G"] = "C 5"`. -/
theorem C7_two_note_fallback :
    (∀ (notes : List String) (a b : Nat),
      (∀ x ∈ notes, (note_to_semitone (stripParen x)).isSome) →
      semitonesOf notes = [a, b] →
      rootSearch [a, b] = none →
      guess_chord notes = .ok (
        if (((b : Int) - (a : Int)) % 12).toNat = 7 then semitone_to_note a ++ " 5"
        else if (((b : Int) - (a : Int)) % 12).toNat = 4 then
          semitone_to_note a ++ " (no fifth)"
        else if (((b : Int) - (a : Int)) % 12).toNat = 3 then
          semitone_to_note a ++ " Minor (no fifth)"
        else "Unknown")) ∧
    guess_chord ["C", "G"] = .ok "C 5" := by
  refine ⟨?_, by decide⟩
  intro notes a b hconv hsem hroot
  have hlen2 : 2 ≤ notes.length := by
    have h1 := length_semitonesOf_le notes
    rw [hsem] at h1
    simpa using h1
  have hne : notes ≠ [] := by
    intro e
    rw [e] at hlen2
    simp at hlen2
  rw [guess_chord_two_le hlen2, calculate_intervals_all_some hne hconv, hsem]
  simp only [afterConvert, hroot]
  split_ifs <;> rfl

/-- Witness for C7: the power chord `["C","G"]`, through the general rule. -/
theorem C7_two_note_fallback_witness : guess_chord ["C", "G"] = .ok "C 5" := by
  rw [C7_two_note_fallback.1 ["C", "G"] 0 7 (by decide) (by decide) (by decide)]
  decide

/-! Machinery for claim C8: the extended-ninth catalog entries are dead. -/

theorem mem_insertLe {a x : Nat} {l : List Nat} :
    a ∈ insertLe x l ↔ a = x ∨ a ∈ l := by
  induction l with
  | nil => simp [insertLe]
  | cons y ys ih =>
    simp only [insertLe]
    split_ifs
    · simp [List.mem_cons]
    · simp only [List.mem_cons, ih]
      tauto

theorem mem_sortList {a : Nat} {l : List Nat} : a ∈ sortList l ↔ a ∈ l := by
  induction l with
  | nil => simp [sortList]
  | cons b l ih =>
    show a ∈ insertLe b (sortList l) ↔ _
    rw [mem_insertLe, ih]
    simp [List.mem_cons]

/-- Every entry of an interval signature is reduced modulo 12. -/
theorem mem_intervalsFor_lt_12 {r v : Nat} {S : List Nat}
    (h : v ∈ intervalsFor r S) : v < 12 := by
  unfold intervalsFor at h
  rw [mem_sortList] at h
  simp only [List.mem_map] at h
  obtain ⟨s, hs, heq⟩ := h
  have h0 : (0 : Int) ≤ (Int.ofNat s - Int.ofNat r) % 12 := Int.emod_nonneg _ (by decide)
  have h1 : (Int.ofNat s - Int.ofNat r) % 12 < 12 := Int.emod_lt_of_pos _ (by decide)
  omega

theorem strLast_append (u t : String) (h : t.data ≠ []) :
    (u ++ t).data.getLast? = t.data.getLast? := by
  rw [String.data_append, List.getLast?_append]
  cases hc : t.data.getLast? with
  | none => exact absurd (List.getLast?_eq_none_iff.1 hc) h
  | some c => rfl

/-- The catalog loop, unrolled to the fifteen conditions in declaration
order. -/
theorem matchCatalog_unfold (I : List Nat) : matchCatalog I =
    if matchCond I [0, 4, 7] then some "Major"
    else if matchCond I [0, 3, 7] then some "minor"
    else if matchCond I [0, 3, 6] then some "Dim"
    else if matchCond I [0, 4, 8] then some "Aug"
    else if matchCond I [0, 4, 7, 11] then some "Maj7"
    else if matchCond I [0, 3, 7, 10] then some "m7"
    else if matchCond I [0, 4, 7, 10] then some "7"
    else if matchCond I [0, 3, 6, 9] then some "Dim7"
    else if matchCond I [0, 2, 7] then some "Sus2"
    else if matchCond I [0, 5, 7] then some "Sus4"
    else if matchCond I [0, 4, 7, 9] then some "6"
    else if matchCond I [0, 3, 7, 9] then some "m6"
    else if matchCond I [0, 4, 7, 10, 14] then some "9"
    else if matchCond I [0, 3, 7, 10, 14] then some "m9"
    else if matchCond I [0, 4, 7, 11, 14] then some "Maj9"
    else none := by
  unfold matchCatalog chord_intervals
  by_cases c1 : matchCond I [0, 4, 7]
  · rw [List.findSome?_cons_of_isSome _ (by simp [c1])]
    try rfl
    try simp [c1]
  rw [List.findSome?_cons_of_isNone _ (by simp [c1]), if_neg c1]
  by_cases c2 : matchCond I [0, 3, 7]
  · rw [List.findSome?_cons_of_isSome _ (by simp [c2])]
    try rfl
    try simp [c2]
  rw [List.findSome?_cons_of_isNone _ (by simp [c2]), if_neg c2]
  by_cases c3 : matchCond I [0, 3, 6]
  · rw [List.findSome?_cons_of_isSome _ (by simp [c3])]
    try rfl
    try simp [c3]
  rw [List.findSome?_cons_of_isNone _ (by simp [c3]), if_neg c3]
  by_cases c4 : matchCond I [0, 4, 8]
  · rw [List.findSome?_cons_of_isSome _ (by simp [c4])]
    try rfl
    try simp [c4]
  rw [List.findSome?_cons_of_isNone _ (by simp [c4]), if_neg c4]
  by_cases c5 : matchCond I [0, 4, 7, 11]
  · rw [List.findSome?_cons_of_isSome _ (by simp [c5])]
    try rfl
    try simp [c5]
  rw [List.findSome?_cons_of_isNone _ (by simp [c5]), if_neg c5]
  by_cases c6 : matchCond I [0, 3, 7, 10]
  · rw [List.findSome?_cons_of_isSome _ (by simp [c6])]
    try rfl
    try simp [c6]
  rw [List.findSome?_cons_of_isNone _ (by simp [c6]), if_neg c6]
  by_cases c7 : matchCond I [0, 4, 7, 10]
  · rw [List.findSome?_cons_of_isSome _ (by simp [c7])]
    try rfl
    try simp [c7]
  rw [List.findSome?_cons_of_isNone _ (by simp [c7]), if_neg c7]
  by_cases c8 : matchCond I [0, 3, 6, 9]
  · rw [List.findSome?_cons_of_isSome _ (by simp [c8])]
    try rfl
    try simp [c8]
  rw [List.findSome?_cons_of_isNone _ (by simp [c8]), if_neg c8]
  by_cases c9 : matchCond I [0, 2, 7]
  · rw [List.findSome?_cons_of_isSome _ (by simp [c9])]
    try rfl
    try simp [c9]
  rw [List.findSome?_cons_of_isNone _ (by simp [c9]), if_neg c9]
  by_cases c10 : matchCond I [0, 5, 7]
  · rw [List.findSome?_cons_of_isSome _ (by simp [c10])]
    try rfl
    try simp [c10]
  rw [List.findSome?_cons_of_isNone _ (by simp [c10]), if_neg c10]
  by_cases c11 : matchCond I [0, 4, 7, 9]
  · rw [List.findSome?_cons_of_isSome _ (by simp [c11])]
    try rfl
    try simp [c11]
  rw [List.findSome?_cons_of_isNone _ (by simp [c11]), if_neg c11]
  by_cases c12 : matchCond I [0, 3, 7, 9]
  · rw [List.findSome?_cons_of_isSome _ (by simp [c12])]
    try rfl
    try simp [c12]
  rw [List.findSome?_cons_of_isNone _ (by simp [c12]), if_neg c12]
  by_cases c13 : matchCond I [0, 4, 7, 10, 14]
  · rw [List.findSome?_cons_of_isSome _ (by simp [c13])]
    try rfl
    try simp [c13]
  rw [List.findSome?_cons_of_isNone _ (by simp [c13]), if_neg c13]
  by_cases c14 : matchCond I [0, 3, 7, 10, 14]
  · rw [List.findSome?_cons_of_isSome _ (by simp [c14])]
    try rfl
    try simp [c14]
  rw [List.findSome?_cons_of_isNone _ (by simp [c14]), if_neg c14]
  by_cases c15 : matchCond I [0, 4, 7, 11, 14]
  · rw [List.findSome?_cons_of_isSome _ (by simp [c15])]
    try rfl
    try simp [c15]
  rw [List.findSome?_cons_of_isNone _ (by simp [c15]), if_neg c15]
  rw [List.findSome?_nil]

/-- With every signature entry below 12, the three catalog entries whose
pattern contains 14 can never be the first match: at truncation length 5 the
entry 14 is unreachable, and at lengths 3 and 4 an earlier entry (Major,
Maj7, minor, m7 or 7) matches the same signature first. -/
theorem matchCatalog_no_extended {I : List Nat} (h12 : ∀ x ∈ I, x < 12)
    {t : String} (ht : matchCatalog I = some t) :
    t ≠ "9" ∧ t ≠ "m9" ∧ t ≠ "Maj9" := by
  rw [matchCatalog_unfold] at ht
  by_cases c1 : matchCond I [0, 4, 7]
  · rw [if_pos c1] at ht
    injection ht with h
    subst h
    decide
  rw [if_neg c1] at ht
  by_cases c2 : matchCond I [0, 3, 7]
  · rw [if_pos c2] at ht
    injection ht with h
    subst h
    decide
  rw [if_neg c2] at ht
  by_cases c3 : matchCond I [0, 3, 6]
  · rw [if_pos c3] at ht
    injection ht with h
    subst h
    decide
  rw [if_neg c3] at ht
  by_cases c4 : matchCond I [0, 4, 8]
  · rw [if_pos c4] at ht
    injection ht with h
    subst h
    decide
  rw [if_neg c4] at ht
  by_cases c5 : matchCond I [0, 4, 7, 11]
  · rw [if_pos c5] at ht
    injection ht with h
    subst h
    decide
  rw [if_neg c5] at ht
  by_cases c6 : matchCond I [0, 3, 7, 10]
  · rw [if_pos c6] at ht
    injection ht with h
    subst h
    decide
  rw [if_neg c6] at ht
  by_cases c7 : matchCond I [0, 4, 7, 10]
  · rw [if_pos c7] at ht
    injection ht with h
    subst h
    decide
  rw [if_neg c7] at ht
  by_cases c8 : matchCond I [0, 3, 6, 9]
  · rw [if_pos c8] at ht
    injection ht with h
    subst h
    decide
  rw [if_neg c8] at ht
  by_cases c9 : matchCond I [0, 2, 7]
  · rw [if_pos c9] at ht
    injection ht with h
    subst h
    decide
  rw [if_neg c9] at ht
  by_cases c10 : matchCond I [0, 5, 7]
  · rw [if_pos c10] at ht
    injection ht with h
    subst h
    decide
  rw [if_neg c10] at ht
  by_cases c11 : matchCond I [0, 4, 7, 9]
  · rw [if_pos c11] at ht
    injection ht with h
    subst h
    decide
  rw [if_neg c11] at ht
  by_cases c12 : matchCond I [0, 3, 7, 9]
  · rw [if_pos c12] at ht
    injection ht with h
    subst h
    decide
  rw [if_neg c12] at ht
  by_cases c13 : matchCond I [0, 4, 7, 10, 14]
  · exfalso
    obtain ⟨hlen, heq⟩ := c13
    have hL : I.length = Nat.min I.length 5 := by
      have hc := congrArg List.length heq
      simpa [List.length_take] using hc
    have hle : I.length ≤ 5 := (le_of_eq hL).trans (Nat.min_le_right I.length 5)
    have h345 : I.length = 3 ∨ I.length = 4 ∨ I.length = 5 := by omega
    rcases h345 with hI | hI | hI
    · rw [hI] at heq
      simp at heq
      subst heq
      exact c1 (by decide)
    · rw [hI] at heq
      simp at heq
      subst heq
      exact c7 (by decide)
    · rw [hI] at heq
      simp at heq
      subst heq
      exact absurd (h12 14 (by decide)) (by decide)
  rw [if_neg c13] at ht
  by_cases c14 : matchCond I [0, 3, 7, 10, 14]
  · exfalso
    obtain ⟨hlen, heq⟩ := c14
    have hL : I.length = Nat.min I.length 5 := by
      have hc := congrArg List.length heq
      simpa [List.length_take] using hc
    have hle : I.length ≤ 5 := (le_of_eq hL).trans (Nat.min_le_right I.length 5)
    have h345 : I.length = 3 ∨ I.length = 4 ∨ I.length = 5 := by omega
    rcases h345 with hI | hI | hI
    · rw [hI] at heq
      simp at heq
      subst heq
      exact c2 (by decide)
    · rw [hI] at heq
      simp at heq
      subst heq
      exact c6 (by decide)
    · rw [hI] at heq
      simp at heq
      subst heq
      exact absurd (h12 14 (by decide)) (by decide)
  rw [if_neg c14] at ht
  by_cases c15 : matchCond I [0, 4, 7, 11, 14]
  · exfalso
    obtain ⟨hlen, heq⟩ := c15
    have hL : I.length = Nat.min I.length 5 := by
      have hc := congrArg List.length heq
      simpa [List.length_take] using hc
    have hle : I.length ≤ 5 := (le_of_eq hL).trans (Nat.min_le_right I.length 5)
    have h345 : I.length = 3 ∨ I.length = 4 ∨ I.length = 5 := by omega
    rcases h345 with hI | hI | hI
    · rw [hI] at heq
      simp at heq
      subst heq
      exact c1 (by decide)
    · rw [hI] at heq
      simp at heq
      subst heq
      exact c5 (by decide)
    · rw [hI] at heq
      simp at heq
      subst heq
      exact absurd (h12 14 (by decide)) (by decide)
  rw [if_neg c15] at ht
  exact Option.noConfusion ht

/-- Every string an `afterConvert` run can return ends in a character other
than '9'. -/
theorem afterConvert_ok_last {S : List Nat} {s : String}
    (h : afterConvert S = .ok s) : s.data.getLast? ≠ some '9' := by
  unfold afterConvert at h
  split at h
  next w hr =>
    have hw : w = s := PyOutcome.ok.inj h
    subst hw
    obtain ⟨r, hrS, hfr⟩ := List.exists_of_findSome?_eq_some hr
    rw [Option.map_eq_some'] at hfr
    obtain ⟨t, ht, hlab⟩ := hfr
    have h12 : ∀ x ∈ intervalsFor r S, x < 12 := fun x hx => mem_intervalsFor_lt_12 hx
    have hbad := matchCatalog_no_extended h12 ht
    rw [matchCatalog] at ht
    obtain ⟨p, hp, hpt⟩ := List.exists_of_findSome?_eq_some ht
    by_cases hc : matchCond (intervalsFor r S) p.2
    · rw [if_pos hc] at hpt
      have hpt2 : p.1 = t := Option.some.inj hpt
      rw [← hlab]
      simp only [chord_intervals, List.mem_cons, List.not_mem_nil, or_false] at hp
      rcases hp with rfl | rfl | rfl | rfl | rfl | rfl | rfl | rfl | rfl | rfl | rfl |
        rfl | rfl | rfl | rfl
      · subst hpt2
        rw [strLast_append _ _ (by decide)]
        decide
      · subst hpt2
        rw [strLast_append _ _ (by decide)]
        decide
      · subst hpt2
        rw [strLast_append _ _ (by decide)]
        decide
      · subst hpt2
        rw [strLast_append _ _ (by decide)]
        decide
      · subst hpt2
        rw [strLast_append _ _ (by decide)]
        decide
      · subst hpt2
        rw [strLast_append _ _ (by decide)]
        decide
      · subst hpt2
        rw [strLast_append _ _ (by decide)]
        decide
      · subst hpt2
        rw [strLast_append _ _ (by decide)]
        decide
      · subst hpt2
        rw [strLast_append _ _ (by decide)]
        decide
      · subst hpt2
        rw [strLast_append _ _ (by decide)]
        decide
      · subst hpt2
        rw [strLast_append _ _ (by decide)]
        decide
      · subst hpt2
        rw [strLast_append _ _ (by decide)]
        decide
      · subst hpt2
        exact absurd rfl hbad.1
      · subst hpt2
        exact absurd rfl hbad.2.1
      · subst hpt2
        exact absurd rfl hbad.2.2
    · rw [if_neg hc] at hpt
      exact Option.noConfusion hpt
  next hr =>
    split at h
    next a b =>
      split_ifs at h with h7 h4 h3
      · have hs := PyOutcome.ok.inj h
        subst hs
        rw [strLast_append _ _ (by decide)]
        decide
      · have hs := PyOutcome.ok.inj h
        subst hs
        rw [strLast_append _ _ (by decide)]
        decide
      · have hs := PyOutcome.ok.inj h
        subst hs
        rw [strLast_append _ _ (by decide)]
        decide
      · have hs := PyOutcome.ok.inj h
        subst hs
        decide
    next =>
      have hs := PyOutcome.ok.inj h
      subst hs
      decide

/-- Every string `guess_chord` can return ends in a character other than
'9'. -/
theorem guess_chord_ok_last {notes : List String} {s : String}
    (h : guess_chord notes = .ok s) : s.data.getLast? ≠ some '9' := by
  rcases notes with _ | ⟨p, _ | ⟨q, rest⟩⟩
  · have hs : "Unknown" = s := PyOutcome.ok.inj h
    subst hs
    decide
  · have hs : p ++ " (single note)" = s := PyOutcome.ok.inj h
    subst hs
    rw [strLast_append _ _ (by decide)]
    decide
  · have h2 : calculate_intervals (p :: q :: rest) = .ok s := h
    unfold calculate_intervals at h2
    rw [if_neg (by simp : ¬(p :: q :: rest = []))] at h2
    by_cases hall : (((p :: q :: rest).map stripParen).map note_to_semitone).all Option.isSome
    · rw [if_pos hall] at h2
      exact afterConvert_ok_last h2
    · rw [if_neg hall] at h2
      by_cases hany :
          (((p :: q :: rest).map stripParen).map note_to_semitone).any Option.isSome
      · rw [if_pos hany] at h2
        have hs := PyOutcome.ok.inj h2
        subst hs
        decide
      · rw [if_neg hany] at h2
        exact PyOutcome.noConfusion h2

/-- Claim C8: `guess_chord` never returns a label whose chord-type component
is "9", "m9" or "Maj9": the catalog entries containing the interval value 14
cannot match at full length because signature entries lie in [0,11], and at
shorter truncation lengths an earlier catalog entry always matches first. -/
theorem C8_no_ninth_labels (notes : List String) (s : String) (r : Nat)
    (h : guess_chord notes = .ok s) :
    s ≠ semitone_to_note r ++ " 9" ∧ s ≠ semitone_to_note r ++ " m9" ∧
    s ≠ semitone_to_note r ++ " Maj9" := by
  have hl := guess_chord_ok_last h
  refine ⟨fun he => hl ?_, fun he => hl ?_, fun he => hl ?_⟩ <;> rw [he]
  · rw [strLast_append _ _ (by decide)]
    decide
  · rw [strLast_append _ _ (by decide)]
    decide
  · rw [strLast_append _ _ (by decide)]
    decide

/-- Witness for C8: the C-major triad's label differs from every
extended-ninth label rooted at C. -/
theorem C8_no_ninth_labels_witness :
    "C Major" ≠ semitone_to_note 0 ++ " 9" ∧
    "C Major" ≠ semitone_to_note 0 ++ " m9" ∧
    "C Major" ≠ semitone_to_note 0 ++ " Maj9" :=
  C8_no_ninth_labels ["C", "E", "G"] "C Major" 0 (by decide)

/-- Claim C9: `normalize_note` composed with itself is the identity on all
ten spellings of the five enharmonic pairs, and `normalize_note` itself is
the identity on the seven natural names. -/
theorem C9_normalize_involution :
    ((["A#", "Bb", "C#", "Db", "D#", "Eb", "F#", "Gb", "G#", "Ab"].all
        fun x => normalize_note (normalize_note x) == x) = true) ∧
    ((["C", "D", "E", "F", "G", "A", "B"].all
        fun x => normalize_note x == x) = true) := by decide

/-- Claim C10: a one-element input is reproduced verbatim with the suffix
" (single note)" — no normalization, parenthetical stripping, or validity
check happens on this path. -/
theorem C10_single_note_verbatim :
    (∀ p : String, guess_chord [p] = .ok (p ++ " (single note)")) ∧
    guess_chord ["G#(Ab)"] = .ok "G#(Ab) (single note)" ∧
    guess_chord ["Zzz"] = .ok "Zzz (single note)" :=
  ⟨fun _ => rfl, by decide, by decide⟩
